import Mathlib

/-!
Verification of the deduplication / retrieval cache of the news aggregator
(`src/db.py`, class `NewsDatabase`) against its specification.

Shallow embedding conventions:
* A Python dict used as a document is `Doc := List (String × Val)`, with
  first-occurrence lookup (`dictGet`) and in-place update of the first
  occurrence / append-at-end (`dictSet`), which coincides with Python dict
  semantics on the duplicate-free key lists Python actually produces.
* `datetime` instants are `Nat` (e.g. microseconds since the epoch): Python
  datetimes are totally ordered and serialize losslessly, which is all the
  code uses.
* Embedding vectors are `Vec := List ℚ`; the OpenAI call
  `_get_embedding : text → vector | None` is an oracle parameter
  `embed : String → Option Vec` (it returns `None` on any provider failure).
* `uuid.uuid4()` and `datetime.now()` are oracle parameters `newId` / `now`.
* The FAISS `IndexFlatL2` state is the list of stored vectors; `ntotal` is
  its length.  `faiss_index.add` appends; `faiss_index.search` is modelled
  per the FAISS contract by `faissSearch`: the `k` nearest stored vectors by
  squared L2 distance, sorted ascending by distance.
-/

namespace NewsDatabase

/-- A JSON-able field value of a document: strings, instants (Python
`datetime`, as `Nat`), and numbers (as `ℚ`, used for the `similarity` /
`distance` fields that `search_similar` attaches). -/
inductive Val where
  | str : String → Val
  | time : Nat → Val
  | rat : ℚ → Val
deriving DecidableEq, Repr

/-- A Python dict with string keys, in insertion order (Python 3.7+ dicts
preserve insertion order). -/
abbrev Doc := List (String × Val)

/-- `d.get(k)` / `d[k]`: value at the first occurrence of key `k`. -/
def dictGet : Doc → String → Option Val
  | [], _ => none
  | p :: t, k => if p.1 == k then some p.2 else dictGet t k

/-- `d[k] = v`: replace the value at the first occurrence of `k`, or append
`(k, v)` when `k` is absent — exactly Python dict assignment on the
duplicate-free key lists Python produces. -/
def dictSet (d : Doc) (k : String) (v : Val) : Doc :=
  match d with
  | [] => [(k, v)]
  | p :: t => if p.1 == k then (k, v) :: t else p :: dictSet t k v

/-- An embedding vector (`np.ndarray` of the fixed embedding dimension). -/
abbrev Vec := List ℚ

/-- The in-memory state of `NewsDatabase`: `self.documents` (insertion
ordered dict `doc_id -> document`), `self.doc_id_to_index`
(`doc_id -> faiss position`), and the FAISS index contents. -/
structure DB where
  documents : List (String × Doc)
  doc_id_to_index : List (String × Nat)
  index : List Vec
deriving DecidableEq, Repr

/-- `self.faiss_index.ntotal`: number of vectors stored in the index. -/
def DB.ntotal (db : DB) : Nat := db.index.length

/-- `document["text"]`: the text that gets embedded (per spec §3 the field
is a non-empty string on every document that reaches the cache). -/
def docText (d : Doc) : String :=
  match dictGet d "text" with
  | some (.str s) => s
  | _ => ""

/-- `insert_document` (db.py lines 98–126).  Mutates the caller's dict in
place (`document["_id"] = ...`, `document["timestamp"] = ...`), then embeds
`document["text"]`; on embedding failure it returns `None` having committed
nothing; on success it stores a copy of the document, appends the vector to
the FAISS index, records position `ntotal - 1`, and returns the new id.
Result: (new state, returned id or `none`, the caller's dict after the
call).  Disk persistence (`_save_index`) does not change the in-memory
state and is modelled separately (`saveIndex`). -/
def insert_document (embed : String → Option Vec) (now : Nat) (newId : String)
    (db : DB) (document : Doc) : DB × Option String × Doc :=
  let doc_id := newId
  let document := dictSet document "_id" (.str doc_id)
  let document := dictSet document "timestamp"
    ((dictGet document "timestamp").getD (.time now))
  match embed (docText document) with
  | none => (db, none, document)
  | some embedding =>
    let documents := db.documents ++ [(doc_id, document)]
    let index := db.index ++ [embedding]
    let index_position := index.length - 1
    let doc_id_to_index := db.doc_id_to_index ++ [(doc_id, index_position)]
    ({ documents := documents, doc_id_to_index := doc_id_to_index,
       index := index }, some doc_id, document)

section DictLemmas

theorem dictGet_dictSet_self (d : Doc) (k : String) (v : Val) :
    dictGet (dictSet d k v) k = some v := by
  induction d with
  | nil => simp [dictSet, dictGet]
  | cons p t ih =>
    by_cases h : p.1 = k
    · simp [dictSet, dictGet, h]
    · simpa [dictSet, dictGet, h] using ih

theorem dictGet_dictSet_ne (d : Doc) (k k' : String) (v : Val) (h : k' ≠ k) :
    dictGet (dictSet d k v) k' = dictGet d k' := by
  have hkk : ¬(k = k') := fun he => h he.symm
  induction d with
  | nil => simp [dictSet, dictGet, hkk]
  | cons p t ih =>
    by_cases hp : p.1 = k
    · simp [dictSet, dictGet, hp, hkk]
    · simp [dictSet, dictGet, hp, ih]

theorem dictSet_dictSet (d : Doc) (k : String) (v w : Val) :
    dictSet (dictSet d k v) k w = dictSet d k w := by
  induction d with
  | nil => simp [dictSet]
  | cons p t ih =>
    by_cases h : p.1 = k
    · simp [dictSet, h]
    · simp [dictSet, h, ih]

theorem dictSet_cancel (d : Doc) (k : String) (v : Val)
    (h : dictGet d k = some v) : dictSet d k v = d := by
  induction d with
  | nil => simp [dictGet] at h
  | cons p t ih =>
    by_cases hp : p.1 = k
    · have hv : p.2 = v := by simpa [dictGet, hp] using h
      have hs : dictSet (p :: t) k v = (k, v) :: t := by simp [dictSet, hp]
      rw [hs, ← hp, ← hv]
    · have h' : dictGet t k = some v := by simpa [dictGet, hp] using h
      simp [dictSet, hp, ih h']

theorem docText_dictSet (d : Doc) (k : String) (v : Val) (h : k ≠ "text") :
    docText (dictSet d k v) = docText d := by
  unfold docText
  rw [dictGet_dictSet_ne d k "text" v (Ne.symm h)]

end DictLemmas

/-- The caller's document after `insert_document`'s two in-place updates. -/
def mutatedDoc (now : Nat) (newId : String) (document : Doc) : Doc :=
  let d := dictSet document "_id" (.str newId)
  dictSet d "timestamp" ((dictGet d "timestamp").getD (.time now))

theorem docText_mutatedDoc (now : Nat) (newId : String) (document : Doc) :
    docText (mutatedDoc now newId document) = docText document := by
  unfold mutatedDoc
  rw [docText_dictSet _ _ _ (by decide), docText_dictSet _ _ _ (by decide)]

theorem insert_document_fail_eq (embed : String → Option Vec) (now : Nat)
    (newId : String) (db : DB) (document : Doc)
    (hfail : embed (docText document) = none) :
    insert_document embed now newId db document
      = (db, none, mutatedDoc now newId document) := by
  have htext : embed (docText (mutatedDoc now newId document)) = none := by
    rw [docText_mutatedDoc]; exact hfail
  unfold mutatedDoc at htext ⊢
  unfold insert_document
  dsimp only at htext ⊢
  rw [htext]

/-- C1: if the embedding provider fails on the document's text, then
`insert_document` leaves the document count, the index's `ntotal` and the
id-to-position mapping at their pre-call values (indeed the whole committed
state is unchanged) and returns an error result (`None` instead of an id). -/
theorem insert_document_embed_fail (embed : String → Option Vec) (now : Nat)
    (newId : String) (db : DB) (document : Doc)
    (hfail : embed (docText document) = none) :
    (insert_document embed now newId db document).1.documents.length
        = db.documents.length ∧
    (insert_document embed now newId db document).1.ntotal = db.ntotal ∧
    (insert_document embed now newId db document).1.doc_id_to_index
        = db.doc_id_to_index ∧
    (insert_document embed now newId db document).1 = db ∧
    (insert_document embed now newId db document).2.1 = none := by
  rw [insert_document_fail_eq embed now newId db document hfail]
  exact ⟨rfl, rfl, rfl, rfl, rfl⟩

/-- Witness for C1 at a concrete input: an always-failing provider, the
empty cache and a one-field document. -/
theorem insert_document_embed_fail_witness :
    (insert_document (fun _ => none) 0 "id0"
        { documents := [], doc_id_to_index := [], index := [] }
        [("text", .str "hello")]).1.documents.length = 0 ∧
    (insert_document (fun _ => none) 0 "id0"
        { documents := [], doc_id_to_index := [], index := [] }
        [("text", .str "hello")]).1.ntotal = 0 ∧
    (insert_document (fun _ => none) 0 "id0"
        { documents := [], doc_id_to_index := [], index := [] }
        [("text", .str "hello")]).1.doc_id_to_index = [] ∧
    (insert_document (fun _ => none) 0 "id0"
        { documents := [], doc_id_to_index := [], index := [] }
        [("text", .str "hello")]).1
      = { documents := [], doc_id_to_index := [], index := [] } ∧
    (insert_document (fun _ => none) 0 "id0"
        { documents := [], doc_id_to_index := [], index := [] }
        [("text", .str "hello")]).2.1 = none :=
  insert_document_embed_fail (fun _ => none) 0 "id0"
    { documents := [], doc_id_to_index := [], index := [] }
    [("text", .str "hello")] rfl

/-- The sort key `x[1].get("timestamp", datetime.min)` used by
`delete_extra` (line 194), on datetime-valued timestamps; `datetime.min`
is the instant `0`. -/
def tsKey (d : Doc) : Nat :=
  match dictGet d "timestamp" with
  | some (.time t) => t
  | _ => 0

/-- `_rebuild_index` (db.py lines 212–232): fresh index and fresh mapping;
for each remaining document in store order, re-embed its text; on success
append the vector and record position `ntotal - 1`; on failure skip the
document and keep going.  The source's early return when `documents` is
empty produces this same state.  `_save_index` at the end is disk-only.
The per-document body of the rebuild loop (lines 223–229): -/
def rebuildStep (embed : String → Option Vec)
    (acc : List Vec × List (String × Nat)) (p : String × Doc) :
    List Vec × List (String × Nat) :=
  match embed (docText p.2) with
  | none => acc
  | some embedding =>
    (acc.1 ++ [embedding],
     acc.2 ++ [(p.1, (acc.1 ++ [embedding]).length - 1)])

/-- The rebuild itself: fold `rebuildStep` over the store from a fresh
index and fresh mapping. -/
def _rebuild_index (embed : String → Option Vec) (db : DB) : DB :=
  let res := db.documents.foldl (rebuildStep embed)
    (([] : List Vec), ([] : List (String × Nat)))
  { documents := db.documents, doc_id_to_index := res.2, index := res.1 }

/-- `sorted(self.documents.items(), key=...)` (lines 192–195): the store's
entries sorted by timestamp, oldest first.  (Python's sort is stable; on
pairwise-distinct sort keys — the only case the spec's claims address —
every sort returns this same list.) -/
def sortedDocs (db : DB) : List (String × Doc) :=
  List.insertionSort (fun a b => tsKey a.2 ≤ tsKey b.2) db.documents

/-- `ids_to_delete` (line 198): ids of the `total_docs - max_docs` oldest
documents. -/
def deletedIds (db : DB) (max_docs : Nat) : List String :=
  ((sortedDocs db).take (db.documents.length - max_docs)).map (fun p => p.1)

/-- `delete_extra` (db.py lines 186–210), the spec's `evict_excess`: if the
store holds more than `max_docs` documents, delete the oldest
`total_docs - max_docs` of them from both `documents` and
`doc_id_to_index`, then rebuild the FAISS index.  The Python function has
no `return` statement, so it returns `None` in every case — modelled as
the pair (new state, returned value `none`). -/
def delete_extra (embed : String → Option Vec) (db : DB) (max_docs : Nat) :
    DB × Option Nat :=
  let total_docs := db.documents.length
  if max_docs < total_docs then
    let ids_to_delete := deletedIds db max_docs
    let documents := db.documents.filter (fun p => decide (p.1 ∉ ids_to_delete))
    let doc_id_to_index :=
      db.doc_id_to_index.filter (fun p => decide (p.1 ∉ ids_to_delete))
    (_rebuild_index embed
      { documents := documents, doc_id_to_index := doc_id_to_index,
        index := db.index }, none)
  else (db, none)

section RebuildLemmas

/-- Closed form of the id→position entries produced by the rebuild fold for
documents `l` when the index already holds `offset` vectors. -/
def rebuildEntries (embed : String → Option Vec) :
    List (String × Doc) → Nat → List (String × Nat)
  | [], _ => []
  | p :: t, offset =>
    match embed (docText p.2) with
    | none => rebuildEntries embed t offset
    | some _ => (p.1, offset) :: rebuildEntries embed t (offset + 1)

theorem rebuild_foldl (embed : String → Option Vec) (l : List (String × Doc))
    (v : List Vec) (m : List (String × Nat)) :
    l.foldl (rebuildStep embed) (v, m)
    = (v ++ l.filterMap (fun p => embed (docText p.2)),
       m ++ rebuildEntries embed l v.length) := by
  induction l generalizing v m with
  | nil => simp [rebuildEntries]
  | cons p t ih =>
    cases he : embed (docText p.2) with
    | none =>
      rw [List.foldl_cons,
        show rebuildStep embed (v, m) p = (v, m) by simp [rebuildStep, he], ih]
      simp [rebuildEntries, he, List.filterMap_cons]
    | some e =>
      rw [List.foldl_cons,
        show rebuildStep embed (v, m) p
            = (v ++ [e], m ++ [(p.1, (v ++ [e]).length - 1)]) by
          simp [rebuildStep, he],
        ih]
      simp [rebuildEntries, he, List.filterMap_cons, List.length_append]

theorem rebuild_index_eq (embed : String → Option Vec) (db : DB) :
    _rebuild_index embed db =
      { documents := db.documents,
        doc_id_to_index := rebuildEntries embed db.documents 0,
        index := db.documents.filterMap (fun p => embed (docText p.2)) } := by
  unfold _rebuild_index
  rw [rebuild_foldl]
  simp

theorem rebuildEntries_map_snd (embed : String → Option Vec)
    (l : List (String × Doc)) (offset : Nat) :
    (rebuildEntries embed l offset).map (fun p => p.2)
      = List.range' offset (l.countP (fun p => (embed (docText p.2)).isSome)) := by
  induction l generalizing offset with
  | nil => simp [rebuildEntries]
  | cons p t ih =>
    cases he : embed (docText p.2) with
    | none => simp [rebuildEntries, he, List.countP_cons, ih]
    | some e =>
      simp [rebuildEntries, he, List.countP_cons, ih, List.range'_succ]

theorem length_filterMap_eq_countP {α β : Type} (f : α → Option β)
    (l : List α) :
    (l.filterMap f).length = l.countP (fun a => (f a).isSome) := by
  induction l with
  | nil => rfl
  | cons a t ih =>
    cases h : f a <;>
      simp [List.filterMap_cons, h, List.countP_cons, ih]

end RebuildLemmas

theorem insert_document_success_eq (embed : String → Option Vec) (now : Nat)
    (newId : String) (db : DB) (document : Doc) (e : Vec)
    (hsucc : embed (docText document) = some e) :
    insert_document embed now newId db document
      = ({ documents := db.documents ++ [(newId, mutatedDoc now newId document)],
           doc_id_to_index := db.doc_id_to_index ++ [(newId, db.index.length)],
           index := db.index ++ [e] },
         some newId, mutatedDoc now newId document) := by
  have htext : embed (docText (mutatedDoc now newId document)) = some e := by
    rw [docText_mutatedDoc]; exact hsucc
  unfold mutatedDoc at htext ⊢
  unfold insert_document
  dsimp only at htext ⊢
  rw [htext]
  simp [List.length_append]

theorem delete_extra_neg_eq (embed : String → Option Vec) (db : DB)
    (max_docs : Nat) (hc : ¬ max_docs < db.documents.length) :
    delete_extra embed db max_docs = (db, none) := by
  unfold delete_extra
  rw [if_neg hc]

theorem delete_extra_pos_eq (embed : String → Option Vec) (db : DB)
    (max_docs : Nat) (hc : max_docs < db.documents.length) :
    delete_extra embed db max_docs
      = (_rebuild_index embed
          { documents :=
              db.documents.filter (fun p => decide (p.1 ∉ deletedIds db max_docs)),
            doc_id_to_index :=
              db.doc_id_to_index.filter
                (fun p => decide (p.1 ∉ deletedIds db max_docs)),
            index := db.index }, none) := by
  unfold delete_extra
  rw [if_pos hc]

/-- The states reachable from the empty cache by any sequence of
`insert_document` and `delete_extra` calls, with arbitrary embedding-oracle
behaviour, ids, clock values, documents and eviction bounds at each step. -/
inductive Reachable : DB → Prop where
  | empty : Reachable { documents := [], doc_id_to_index := [], index := [] }
  | insert (embed : String → Option Vec) (now : Nat) (newId : String)
      (doc : Doc) {db : DB} : Reachable db →
      Reachable (insert_document embed now newId db doc).1
  | evict (embed : String → Option Vec) (max_docs : Nat) {db : DB} :
      Reachable db → Reachable (delete_extra embed db max_docs).1

/-- C2: after any sequence of inserts and evictions starting from the empty
cache, the values of `doc_id_to_index` are a permutation of
`{0, ..., ntotal - 1}`: exactly that set, with no gaps and no duplicate
positions. -/
theorem doc_id_to_index_dense (db : DB) (h : Reachable db) :
    List.Perm (db.doc_id_to_index.map (fun p => p.2))
      (List.range db.ntotal) := by
  induction h with
  | empty => simp [DB.ntotal]
  | @insert embed now newId doc db0 hr ih =>
    cases he : embed (docText doc) with
    | none => rw [insert_document_fail_eq embed now newId db0 doc he]; exact ih
    | some e =>
      rw [insert_document_success_eq embed now newId db0 doc e he]
      have : (db0.doc_id_to_index ++ [(newId, db0.index.length)]).map
          (fun p => p.2)
          = db0.doc_id_to_index.map (fun p => p.2) ++ [db0.index.length] := by
        simp
      dsimp only [DB.ntotal]
      rw [this]
      have hnt : (db0.index ++ [e]).length = db0.index.length + 1 := by simp
      rw [hnt, List.range_succ]
      exact ih.append_right [db0.index.length]
  | @evict embed max_docs db0 hr ih =>
    by_cases hc : max_docs < db0.documents.length
    · rw [delete_extra_pos_eq embed db0 max_docs hc, rebuild_index_eq]
      dsimp only [DB.ntotal]
      rw [rebuildEntries_map_snd, length_filterMap_eq_countP,
        ← List.range_eq_range']
    · rw [delete_extra_neg_eq embed db0 max_docs hc]
      exact ih

/-- Witness for C2 at the empty cache. -/
theorem doc_id_to_index_dense_witness :
    List.Perm
      ((DB.mk [] [] []).doc_id_to_index.map (fun p => p.2))
      (List.range (DB.mk [] [] []).ntotal) :=
  doc_id_to_index_dense { documents := [], doc_id_to_index := [], index := [] }
    Reachable.empty

section EvictionLemmas

/-- In a duplicate-free-keyed association list (a Python dict), a key
determines its value. -/
theorem nodupKeys_eq {α β : Type} {l : List (α × β)}
    (hnd : (l.map Prod.fst).Nodup) {a : α} {b c : β}
    (hb : (a, b) ∈ l) (hc : (a, c) ∈ l) : b = c := by
  induction l with
  | nil => cases hb
  | cons p t ih =>
    rw [List.map_cons, List.nodup_cons] at hnd
    rcases List.mem_cons.1 hb with hb1 | hb2 <;>
      rcases List.mem_cons.1 hc with hc1 | hc2
    · rw [← hb1] at hc1
      exact (((Prod.mk.injEq a c a b).mp hc1).2).symm
    · exact absurd (List.mem_map_of_mem Prod.fst hc2)
        (by rw [← hb1] at hnd; exact hnd.1)
    · exact absurd (List.mem_map_of_mem Prod.fst hb2)
        (by rw [← hc1] at hnd; exact hnd.1)
    · exact ih hnd.2 hb2 hc2

/-- In a strictly key-sorted list, an element is among the first `k`
entries exactly when fewer than `k` entries have a smaller key. -/
theorem mem_take_iff_countP_lt {α : Type} (key : α → Nat) :
    ∀ (s : List α) (k : Nat) (p : α),
      List.Pairwise (fun a b => key a < key b) s → p ∈ s →
      (p ∈ s.take k ↔ s.countP (fun q => decide (key q < key p)) < k) := by
  intro s
  induction s with
  | nil => intro k p _ hp; cases hp
  | cons a t ih =>
    intro k p hs hp
    rcases List.pairwise_cons.1 hs with ⟨ha, ht⟩
    cases k with
    | zero => simp
    | succ j =>
      rcases List.mem_cons.1 hp with hpa | hpt
      · subst hpa
        have hcnt : (p :: t).countP (fun q => decide (key q < key p)) = 0 := by
          rw [List.countP_eq_zero]
          intro q hq
          rcases List.mem_cons.1 hq with h1 | h2
          · subst h1; simp
          · simpa using Nat.not_lt.2 (Nat.le_of_lt (ha q h2))
        simp [List.take_succ_cons, hcnt]
      · have hkey : key a < key p := ha p hpt
        have hne : p ≠ a := by
          intro he; subst he; exact absurd hkey (lt_irrefl _)
        have hcnt : (a :: t).countP (fun q => decide (key q < key p))
            = t.countP (fun q => decide (key q < key p)) + 1 := by
          rw [List.countP_cons]; simp [hkey]
        rw [List.take_succ_cons, hcnt]
        constructor
        · intro hmem
          rcases List.mem_cons.1 hmem with h1 | h2
          · exact absurd h1 hne
          · have := (ih j p ht hpt).1 h2
            omega
        · intro hlt
          have hj : t.countP (fun q => decide (key q < key p)) < j := by omega
          exact List.mem_cons_of_mem a ((ih j p ht hpt).2 hj)

instance : IsTotal (String × Doc) (fun a b => tsKey a.2 ≤ tsKey b.2) :=
  ⟨fun a b => Nat.le_total (tsKey a.2) (tsKey b.2)⟩

instance : IsTrans (String × Doc) (fun a b => tsKey a.2 ≤ tsKey b.2) :=
  ⟨fun _ _ _ h1 h2 => le_trans h1 h2⟩

theorem sortedDocs_perm (db : DB) : List.Perm (sortedDocs db) db.documents :=
  List.perm_insertionSort _ _

theorem sortedDocs_sorted (db : DB) :
    List.Sorted (fun a b => tsKey a.2 ≤ tsKey b.2) (sortedDocs db) :=
  List.sorted_insertionSort _ _

theorem sortedDocs_strict (db : DB)
    (hts : (db.documents.map (fun p => tsKey p.2)).Nodup) :
    List.Pairwise (fun a b => tsKey a.2 < tsKey b.2) (sortedDocs db) := by
  have hperm := sortedDocs_perm db
  have hnd : ((sortedDocs db).map (fun p => tsKey p.2)).Nodup :=
    ((hperm.map (fun p => tsKey p.2)).nodup_iff).2 hts
  have hne : List.Pairwise (fun a b => tsKey a.2 ≠ tsKey b.2) (sortedDocs db) :=
    List.pairwise_map.1 hnd
  exact ((sortedDocs_sorted db).and hne).imp
    (fun h => lt_of_le_of_ne h.1 h.2)

theorem mem_deletedIds_iff (db : DB) (N : Nat)
    (hnd : (db.documents.map Prod.fst).Nodup)
    {p : String × Doc} (hp : p ∈ db.documents) :
    p.1 ∈ deletedIds db N
      ↔ p ∈ (sortedDocs db).take (db.documents.length - N) := by
  unfold deletedIds
  constructor
  · intro hmem
    rcases List.mem_map.1 hmem with ⟨q, hq, hq1⟩
    have hqdoc : q ∈ db.documents :=
      (sortedDocs_perm db).mem_iff.1 (List.mem_of_mem_take hq)
    have hq' : (p.1, q.2) ∈ db.documents := by
      have he : q = (p.1, q.2) := by
        rw [← hq1]
      rwa [he] at hqdoc
    have hp' : (p.1, p.2) ∈ db.documents := hp
    have h2 : q.2 = p.2 := nodupKeys_eq hnd hq' hp'
    have he : q = p := Prod.ext hq1 h2
    rwa [he] at hq
  · intro hmem
    exact List.mem_map_of_mem (fun p => p.1) hmem

theorem countP_not_mem_add {α : Type} (p : α → Prop) [DecidablePred p]
    (l : List α) :
    l.countP (fun a => decide (¬ p a)) + l.countP (fun a => decide (p a))
      = l.length := by
  induction l with
  | nil => rfl
  | cons a t ih =>
    by_cases h : p a <;> simp [List.countP_cons, h, ← ih] <;> omega

theorem countP_deletedIds (db : DB) (N : Nat)
    (hnd : (db.documents.map Prod.fst).Nodup)
    (hc : N < db.documents.length) :
    db.documents.countP (fun p => decide (p.1 ∈ deletedIds db N))
      = db.documents.length - N := by
  have hperm := sortedDocs_perm db
  rw [← hperm.countP_eq]
  have hlen : (sortedDocs db).length = db.documents.length := hperm.length_eq
  have hexle : db.documents.length - N ≤ (sortedDocs db).length := by omega
  conv_lhs =>
    rw [← List.take_append_drop (db.documents.length - N) (sortedDocs db)]
  rw [List.countP_append]
  have h1 : ((sortedDocs db).take (db.documents.length - N)).countP
      (fun p => decide (p.1 ∈ deletedIds db N))
      = db.documents.length - N := by
    have hall : ∀ q ∈ (sortedDocs db).take (db.documents.length - N),
        decide (q.1 ∈ deletedIds db N) = true := by
      intro q hq
      simp only [decide_eq_true_eq]
      exact List.mem_map_of_mem (fun p => p.1) hq
    rw [List.countP_eq_length.2 hall, List.length_take]
    omega
  have h2 : ((sortedDocs db).drop (db.documents.length - N)).countP
      (fun p => decide (p.1 ∈ deletedIds db N)) = 0 := by
    rw [List.countP_eq_zero]
    intro q hq hqmem
    simp only [decide_eq_true_eq] at hqmem
    rcases List.mem_map.1 hqmem with ⟨q', hq', hq'1⟩
    have hqdoc : q ∈ db.documents :=
      hperm.mem_iff.1 (List.mem_of_mem_drop hq)
    have hq'doc : q' ∈ db.documents :=
      hperm.mem_iff.1 (List.mem_of_mem_take hq')
    have hq'pair : (q.1, q'.2) ∈ db.documents := by
      have he : q' = (q.1, q'.2) := by rw [← hq'1]
      rwa [he] at hq'doc
    have h2 : q'.2 = q.2 := nodupKeys_eq hnd hq'pair hqdoc
    have he : q' = q := Prod.ext hq'1 h2
    have hnds : (sortedDocs db).Nodup :=
      (hperm.nodup_iff).2 (List.Nodup.of_map Prod.fst hnd)
    have hnds2 : ((sortedDocs db).take (db.documents.length - N)
        ++ (sortedDocs db).drop (db.documents.length - N)).Nodup := by
      rw [List.take_append_drop]
      exact hnds
    have hdisj := (List.nodup_append.1 hnds2).2.2
    exact hdisj (he ▸ hq') hq
  omega

theorem delete_extra_doc_length (embed : String → Option Vec) (db : DB)
    (N : Nat) (hnd : (db.documents.map Prod.fst).Nodup) :
    (delete_extra embed db N).1.documents.length
      = db.documents.length - (db.documents.length - N) := by
  by_cases hc : N < db.documents.length
  · rw [delete_extra_pos_eq embed db N hc, rebuild_index_eq]
    dsimp only
    rw [← List.countP_eq_length_filter]
    have hsum := countP_not_mem_add (fun p : String × Doc =>
      p.1 ∈ deletedIds db N) db.documents
    have hcnt := countP_deletedIds db N hnd hc
    omega
  · rw [delete_extra_neg_eq embed db N hc]
    dsimp only
    omega

theorem delete_extra_retained (embed : String → Option Vec) (db : DB)
    (N : Nat) (hnd : (db.documents.map Prod.fst).Nodup)
    (hts : (db.documents.map (fun p => tsKey p.2)).Nodup)
    (hc : N < db.documents.length) (p : String × Doc)
    (hp : p ∈ db.documents) :
    p ∈ (delete_extra embed db N).1.documents ↔
      db.documents.length - N
        ≤ db.documents.countP (fun q => decide (tsKey q.2 < tsKey p.2)) := by
  rw [delete_extra_pos_eq embed db N hc, rebuild_index_eq]
  dsimp only
  rw [List.mem_filter]
  simp only [hp, true_and, decide_eq_true_eq]
  rw [mem_deletedIds_iff db N hnd hp,
    mem_take_iff_countP_lt (fun q => tsKey q.2) (sortedDocs db)
      (db.documents.length - N) p (sortedDocs_strict db hts)
      ((sortedDocs_perm db).mem_iff.2 hp),
    (sortedDocs_perm db).countP_eq]
  omega

end EvictionLemmas

/-- C3: on a store whose documents all carry pairwise-distinct
datetime timestamps, `delete_extra` (the spec's `evict_excess`) is a no-op
when the count is within the bound, and otherwise keeps exactly the `N`
most-recent documents: the post-call count is `N` and a document survives
iff at least `count - N` documents are strictly older than it (i.e. exactly
the `count - N` oldest are removed). -/
theorem delete_extra_evicts_oldest (embed : String → Option Vec) (db : DB)
    (N : Nat) (hnd : (db.documents.map Prod.fst).Nodup)
    (htime : ∀ q ∈ db.documents,
      ∃ t, dictGet q.2 "timestamp" = some (.time t))
    (hts : (db.documents.map (fun p => dictGet p.2 "timestamp")).Nodup) :
    (db.documents.length ≤ N → (delete_extra embed db N).1 = db) ∧
    (N < db.documents.length →
      (delete_extra embed db N).1.documents.length = N ∧
      ∀ p ∈ db.documents,
        (p ∈ (delete_extra embed db N).1.documents ↔
          db.documents.length - N
            ≤ db.documents.countP
                (fun q => decide (tsKey q.2 < tsKey p.2)))) := by
  have htsKey : (db.documents.map (fun p => tsKey p.2)).Nodup := by
    have hpair : List.Pairwise
        (fun a b => dictGet a.2 "timestamp" ≠ dictGet b.2 "timestamp")
        db.documents := List.pairwise_map.1 hts
    have hstep : List.Pairwise (fun a b => tsKey a.2 ≠ tsKey b.2)
        db.documents := by
      refine hpair.imp_of_mem ?_
      intro a b ha hb hne
      rcases htime a ha with ⟨ta, hta⟩
      rcases htime b hb with ⟨tb, htb⟩
      have h1 : tsKey a.2 = ta := by unfold tsKey; rw [hta]
      have h2 : tsKey b.2 = tb := by unfold tsKey; rw [htb]
      rw [h1, h2]
      intro he
      exact hne (by rw [hta, htb, he])
    exact List.pairwise_map.2 hstep
  constructor
  · intro hle
    have hc : ¬ N < db.documents.length := by omega
    rw [delete_extra_neg_eq embed db N hc]
  · intro hc
    refine ⟨?_, ?_⟩
    · rw [delete_extra_doc_length embed db N hnd]
      omega
    · intro p hp
      exact delete_extra_retained embed db N hnd htsKey hc p hp

/-- A concrete three-document store with timestamps 1 < 2 < 3, used by the
eviction witnesses. -/
def exampleDB : DB :=
  { documents :=
      [("a", [("text", .str "ta"), ("timestamp", .time 1)]),
       ("b", [("text", .str "tb"), ("timestamp", .time 2)]),
       ("c", [("text", .str "tc"), ("timestamp", .time 3)])],
    doc_id_to_index := [("a", 0), ("b", 1), ("c", 2)],
    index := [[1], [2], [3]] }

/-- Witness for C3: the spec's scenario — three documents with timestamps
`t1 < t2 < t3`, evicting to a bound of 2. -/
theorem delete_extra_evicts_oldest_witness :
    (exampleDB.documents.length ≤ 2 →
      (delete_extra (fun _ => some [0]) exampleDB 2).1 = exampleDB) ∧
    (2 < exampleDB.documents.length →
      (delete_extra (fun _ => some [0]) exampleDB 2).1.documents.length = 2 ∧
      ∀ p ∈ exampleDB.documents,
        (p ∈ (delete_extra (fun _ => some [0]) exampleDB 2).1.documents ↔
          exampleDB.documents.length - 2
            ≤ exampleDB.documents.countP
                (fun q => decide (tsKey q.2 < tsKey p.2)))) :=
  delete_extra_evicts_oldest (fun _ => some [0]) exampleDB 2 (by decide)
    (by
      intro q hq
      simp only [exampleDB, List.mem_cons, List.not_mem_nil, or_false] at hq
      rcases hq with h | h | h
      · rw [h]; exact ⟨1, by decide⟩
      · rw [h]; exact ⟨2, by decide⟩
      · rw [h]; exact ⟨3, by decide⟩)
    (by decide)

/-- C4 counterexample: the claim says `delete_extra` returns the number of
evicted documents (here `0`), but the Python function has no `return`
statement, so the call returns `None`. -/
theorem delete_extra_return_counterexample :
    (delete_extra (fun _ => none)
        { documents := [], doc_id_to_index := [], index := [] } 0).2
      ≠ some 0 := by
  decide

/-- C4 amended: `delete_extra` always returns `None` (no count); the
eviction itself removes `count - max_docs` documents when
`count > max_docs` and none otherwise, i.e. the post-call count is
`count - (count - max_docs)`. -/
theorem delete_extra_return_value (embed : String → Option Vec) (db : DB)
    (N : Nat) (hnd : (db.documents.map Prod.fst).Nodup) :
    (delete_extra embed db N).2 = none ∧
    (delete_extra embed db N).1.documents.length
      = db.documents.length - (db.documents.length - N) := by
  constructor
  · by_cases hc : N < db.documents.length
    · rw [delete_extra_pos_eq embed db N hc]
    · rw [delete_extra_neg_eq embed db N hc]
  · exact delete_extra_doc_length embed db N hnd

/-- Witness for C4's amended claim on the three-document store. -/
theorem delete_extra_return_value_witness :
    (delete_extra (fun _ => some [0]) exampleDB 2).2 = none ∧
    (delete_extra (fun _ => some [0]) exampleDB 2).1.documents.length
      = exampleDB.documents.length - (exampleDB.documents.length - 2) :=
  delete_extra_return_value (fun _ => some [0]) exampleDB 2 (by decide)

theorem mem_rebuildEntries_fst (embed : String → Option Vec)
    (l : List (String × Doc)) (offset : Nat) (a : String)
    (ha : a ∈ (rebuildEntries embed l offset).map Prod.fst) :
    ∃ d, (a, d) ∈ l ∧ (embed (docText d)).isSome := by
  induction l generalizing offset with
  | nil => simp [rebuildEntries] at ha
  | cons p t ih =>
    cases he : embed (docText p.2) with
    | none =>
      rw [show rebuildEntries embed (p :: t) offset
          = rebuildEntries embed t offset by simp [rebuildEntries, he]] at ha
      rcases ih offset ha with ⟨d, hd, hs⟩
      exact ⟨d, List.mem_cons_of_mem p hd, hs⟩
    | some e =>
      rw [show rebuildEntries embed (p :: t) offset
          = (p.1, offset) :: rebuildEntries embed t (offset + 1) by
        simp [rebuildEntries, he], List.map_cons] at ha
      rcases List.mem_cons.1 ha with h1 | h2
      · refine ⟨p.2, ?_, ?_⟩
        · rw [h1]
          exact List.mem_cons_self p t
        · rw [he]
          rfl
      · rcases ih (offset + 1) h2 with ⟨d, hd, hs⟩
        exact ⟨d, List.mem_cons_of_mem p hd, hs⟩

/-- C8: during `_rebuild_index` (the rebuild step of eviction), a document
whose re-embedding fails does not abort the rebuild — the store is left
exactly as it was (the document included), the failed document gets no
entry in the rebuilt id-to-position mapping, and the rebuilt index still
holds one vector per successfully re-embedded document. -/
theorem rebuild_skips_failed_doc (embed : String → Option Vec) (db : DB)
    (hnd : (db.documents.map Prod.fst).Nodup) (id : String) (doc : Doc)
    (hmem : (id, doc) ∈ db.documents)
    (hfail : embed (docText doc) = none) :
    (_rebuild_index embed db).documents = db.documents ∧
    (id, doc) ∈ (_rebuild_index embed db).documents ∧
    id ∉ (_rebuild_index embed db).doc_id_to_index.map Prod.fst ∧
    (_rebuild_index embed db).ntotal
      = db.documents.countP (fun p => (embed (docText p.2)).isSome) := by
  rw [rebuild_index_eq]
  refine ⟨rfl, hmem, ?_, ?_⟩
  · intro hin
    rcases mem_rebuildEntries_fst embed db.documents 0 id hin with ⟨d, hd, hs⟩
    have : d = doc := nodupKeys_eq hnd hd hmem
    rw [this, hfail] at hs
    cases hs
  · dsimp only [DB.ntotal]
    exact length_filterMap_eq_countP _ _

/-- Witness for C8: three stored documents, where the middle one fails to
re-embed and the others succeed. -/
theorem rebuild_skips_failed_doc_witness :
    (_rebuild_index (fun s => if s = "tb" then none else some [5])
        exampleDB).documents = exampleDB.documents ∧
    ("b", [("text", .str "tb"), ("timestamp", .time 2)])
      ∈ (_rebuild_index (fun s => if s = "tb" then none else some [5])
          exampleDB).documents ∧
    "b" ∉ (_rebuild_index (fun s => if s = "tb" then none else some [5])
        exampleDB).doc_id_to_index.map Prod.fst ∧
    (_rebuild_index (fun s => if s = "tb" then none else some [5])
        exampleDB).ntotal
      = exampleDB.documents.countP
          (fun p => ((fun s => if s = "tb" then none else some [5])
            (docText p.2)).isSome) :=
  rebuild_skips_failed_doc (fun s => if s = "tb" then none else some [5])
    exampleDB (by decide) "b" [("text", .str "tb"), ("timestamp", .time 2)]
    (by decide) (by decide)

/-- `query` (db.py lines 172–184): all documents in which every field of
the filter is present with an exactly equal value, in store order. -/
def query (db : DB) (filter : List (String × Val)) : List Doc :=
  db.documents.filterMap (fun p =>
    if filter.all (fun kv => decide (dictGet p.2 kv.1 = some kv.2))
    then some p.2 else none)

/-- C9: `query` returns exactly the stored documents matching every filter
field; consequently the dedup existence check `query({"link": v}) ≠ []` is
false on an empty store and true after successfully inserting a document
whose `link` equals `v`. -/
theorem query_spec (db : DB) (filt : List (String × Val)) (d : Doc)
    (embed : String → Option Vec) (now : Nat) (newId : String)
    (document : Doc) (v : Val)
    (hlink : dictGet document "link" = some v)
    (hemb : (embed (docText document)).isSome) :
    (d ∈ query db filt ↔
      ∃ id, (id, d) ∈ db.documents ∧ ∀ kv ∈ filt, dictGet d kv.1 = some kv.2) ∧
    query { documents := [], doc_id_to_index := [], index := [] }
        [("link", v)] = [] ∧
    query (insert_document embed now newId db document).1 [("link", v)]
      ≠ [] := by
  refine ⟨?_, rfl, ?_⟩
  · constructor
    · intro hd
      rcases List.mem_filterMap.1 hd with ⟨p, hp, hf⟩
      by_cases hcond :
          filt.all (fun kv => decide (dictGet p.2 kv.1 = some kv.2))
      · rw [if_pos hcond] at hf
        injection hf with hf
        subst hf
        refine ⟨p.1, by simpa using hp, ?_⟩
        intro kv hkv
        simpa using List.all_eq_true.1 hcond kv hkv
      · rw [if_neg hcond] at hf
        cases hf
    · rintro ⟨id, hmemd, hall⟩
      apply List.mem_filterMap.2
      refine ⟨(id, d), hmemd, ?_⟩
      rw [if_pos]
      exact List.all_eq_true.2 (fun kv hkv => by simpa using hall kv hkv)
  · rcases Option.isSome_iff_exists.1 hemb with ⟨e, he⟩
    rw [insert_document_success_eq embed now newId db document e he]
    dsimp only
    unfold query
    dsimp only
    rw [List.filterMap_append]
    have hlink' : dictGet (mutatedDoc now newId document) "link" = some v := by
      unfold mutatedDoc
      rw [dictGet_dictSet_ne _ _ _ _ (by decide),
        dictGet_dictSet_ne _ _ _ _ (by decide), hlink]
    have hone : List.filterMap (fun p =>
        if List.all [("link", v)]
            (fun kv => decide (dictGet p.2 kv.1 = some kv.2))
        then some p.2 else none)
        [(newId, mutatedDoc now newId document)]
        = [mutatedDoc now newId document] := by
      rw [List.filterMap_cons]
      dsimp only
      rw [if_pos (by simp [hlink'])]
      rfl
    rw [hone]
    intro hcontra
    have := congrArg List.length hcontra
    simp at this

/-- Witness for C9 on concrete inputs: empty store, empty filter, a
document with `link="u"` and an always-succeeding embedder. -/
theorem query_spec_witness :
    (([] : Doc) ∈ query { documents := [], doc_id_to_index := [], index := [] }
        ([] : List (String × Val)) ↔
      ∃ id, (id, ([] : Doc))
          ∈ (DB.mk [] [] []).documents ∧
        ∀ kv ∈ ([] : List (String × Val)), dictGet [] kv.1 = some kv.2) ∧
    query { documents := [], doc_id_to_index := [], index := [] }
        [("link", .str "u")] = [] ∧
    query (insert_document (fun _ => some [1]) 0 "i"
        { documents := [], doc_id_to_index := [], index := [] }
        [("text", .str "x"), ("link", .str "u")]).1
        [("link", .str "u")] ≠ [] :=
  query_spec { documents := [], doc_id_to_index := [], index := [] } []
    [] (fun _ => some [1]) 0 "i"
    [("text", .str "x"), ("link", .str "u")] (.str "u") (by decide) (by decide)

/-- The two persisted artifacts, written together by `_save_index`
(db.py lines 65–85): the FAISS index blob and the JSON record holding
`documents` and `doc_id_to_index`. -/
structure SavedData where
  index : List Vec
  documents : List (String × Doc)
  doc_id_to_index : List (String × Nat)
deriving DecidableEq, Repr

/-- Timestamp serialization in `_save_index` (lines 70–76): on a copy of
each document, a datetime-valued top-level `timestamp` is replaced by its
ISO-8601 string `iso t`; any other value is written as-is.  `iso` is the
oracle for `datetime.isoformat`. -/
def serializeDoc (iso : Nat → String) (doc : Doc) : Doc :=
  match dictGet doc "timestamp" with
  | some (.time t) => dictSet doc "timestamp" (.str (iso t))
  | _ => doc

/-- `_save_index` (lines 65–85): persists the index blob plus the JSON
record of serialized documents and the id-to-position mapping. -/
def _save_index (iso : Nat → String) (db : DB) : SavedData :=
  { index := db.index,
    documents := db.documents.map (fun p => (p.1, serializeDoc iso p.2)),
    doc_id_to_index := db.doc_id_to_index }

/-- Timestamp parsing in `_load_or_create_index` (lines 45–53): a
string-valued top-level `timestamp` is parsed back with
`datetime.fromisoformat`; if parsing fails the raw string is left in
place (lenient, non-fatal).  `parse` is the oracle for
`datetime.fromisoformat`, returning `none` where Python raises. -/
def parseDoc (parse : String → Option Nat) (doc : Doc) : Doc :=
  match dictGet doc "timestamp" with
  | some (.str s) =>
    match parse s with
    | some t => dictSet doc "timestamp" (.time t)
    | none => doc
  | _ => doc

/-- The load half of `_load_or_create_index` (db.py lines 37–55), in the
case where both files exist and parse: restore the index blob, the
documents (timestamps parsed back from ISO-8601) and the id-to-position
mapping. -/
def _load_or_create_index (parse : String → Option Nat) (d : SavedData) :
    DB :=
  { documents := d.documents.map (fun p => (p.1, parseDoc parse p.2)),
    doc_id_to_index := d.doc_id_to_index,
    index := d.index }

/-- C7: saving and reloading into a fresh instance reproduces an equal
document store and an equal id-to-position mapping, for any store whose
`timestamp` fields hold datetimes (as produced by inserting documents) —
given that ISO-8601 round-trips (`fromisoformat (isoformat t) = t`, the
documented contract of the Python datetime library). -/
theorem save_load_roundtrip (iso : Nat → String)
    (parse : String → Option Nat) (db : DB)
    (hround : ∀ t, parse (iso t) = some t)
    (htime : ∀ q ∈ db.documents, ∀ v,
      dictGet q.2 "timestamp" = some v → ∃ t, v = Val.time t) :
    _load_or_create_index parse (_save_index iso db) = db := by
  obtain ⟨docs, m, idx⟩ := db
  unfold _load_or_create_index _save_index
  dsimp only
  have hdocs : ∀ q ∈ docs,
      (q.1, parseDoc parse (serializeDoc iso q.2)) = q := by
    intro q hq
    have hdoc : parseDoc parse (serializeDoc iso q.2) = q.2 := by
      cases hts : dictGet q.2 "timestamp" with
      | none =>
        simp only [serializeDoc, parseDoc, hts]
      | some v =>
        rcases htime q hq v hts with ⟨t, hv⟩
        subst hv
        have hser : serializeDoc iso q.2
            = dictSet q.2 "timestamp" (.str (iso t)) := by
          simp only [serializeDoc, hts]
        rw [hser]
        simp only [parseDoc, dictGet_dictSet_self, hround, dictSet_dictSet]
        exact dictSet_cancel q.2 "timestamp" (Val.time t) hts
    rw [hdoc]
  have hmap : List.map (fun p => (p.1, parseDoc parse p.2))
      (List.map (fun p => (p.1, serializeDoc iso p.2)) docs) = docs := by
    rw [List.map_map]
    have h2 : List.map ((fun p : String × Doc => (p.1, parseDoc parse p.2)) ∘
        fun p : String × Doc => (p.1, serializeDoc iso p.2)) docs
        = List.map id docs :=
      List.map_congr_left (fun q hq => by
        simpa [Function.comp] using hdocs q hq)
    rw [h2, List.map_id]
  rw [hmap]

/-- Witness for C7: the three-document store, with a concrete serialization
pair satisfying the round-trip contract (`iso t` = `t` letters `a`,
`parse` = string length). -/
theorem save_load_roundtrip_witness :
    _load_or_create_index (fun s => some s.length)
        (_save_index (fun t => String.mk (List.replicate t 'a')) exampleDB)
      = exampleDB :=
  save_load_roundtrip (fun t => String.mk (List.replicate t 'a'))
    (fun s => some s.length) exampleDB
    (by
      intro t
      simp [String.length])
    (by
      intro q hq v hv
      simp only [exampleDB, List.mem_cons, List.not_mem_nil, or_false] at hq
      rcases hq with h | h | h <;> subst h
      · rw [show dictGet [("text", Val.str "ta"), ("timestamp", Val.time 1)]
            "timestamp" = some (Val.time 1) from by decide] at hv
        injection hv with h2
        exact ⟨1, h2.symm⟩
      · rw [show dictGet [("text", Val.str "tb"), ("timestamp", Val.time 2)]
            "timestamp" = some (Val.time 2) from by decide] at hv
        injection hv with h2
        exact ⟨2, h2.symm⟩
      · rw [show dictGet [("text", Val.str "tc"), ("timestamp", Val.time 3)]
            "timestamp" = some (Val.time 3) from by decide] at hv
        injection hv with h2
        exact ⟨3, h2.symm⟩)

/-- Squared L2 distance between two vectors, the metric of FAISS
`IndexFlatL2`. -/
def l2sq (a b : Vec) : ℚ := ((a.zip b).map (fun p => (p.1 - p.2) ^ 2)).sum

/-- The FAISS contract for `IndexFlatL2.search` with `k ≤ ntotal`: the `k`
nearest stored vectors by squared L2 distance, as (distance, position)
pairs sorted ascending by distance.  No `-1` placeholder positions arise
because `search_similar` passes `k = min(top_k, ntotal)`, so the source's
`index == -1` guard (line 150) never skips anything. -/
def faissSearch (index : List Vec) (q : Vec) (k : Nat) : List (ℚ × Nat) :=
  (List.insertionSort (fun a b => a.1 ≤ b.1)
    (index.enum.map (fun p => (l2sq q p.2, p.1)))).take k

/-- `similarity = 1.0 / (1.0 + distance)` (db.py line 154). -/
def similarity (d : ℚ) : ℚ := 1 / (1 + d)

/-- Loop body of `search_similar` (lines 149–168) for one FAISS hit:
threshold check, reverse scan of `doc_id_to_index` for the first id mapped
to the hit's position, the `if doc_id and doc_id in self.documents` guard,
then a copy of the document annotated with `similarity` and `distance`. -/
def hitResult (db : DB) (similarity_threshold : ℚ) (hit : ℚ × Nat) :
    Option Doc :=
  if similarity_threshold ≤ similarity hit.1 then
    match db.doc_id_to_index.find? (fun p => p.2 == hit.2) with
    | some q =>
      if q.1 = "" then none
      else
        match db.documents.find? (fun p => p.1 == q.1) with
        | some r => some (dictSet (dictSet r.2 "similarity"
            (.rat (similarity hit.1))) "distance" (.rat hit.1))
        | none => none
    | none => none
  else none

/-- `search_similar` (db.py lines 128–170).  Returns the result list paired
with the number of calls made to `_get_embedding` (to express that the
empty-index early return never invokes the embedding provider).  The
method reads but never writes the instance state, so it is embedded as a
pure function of `db`. -/
def search_similar (embed : String → Option Vec) (db : DB)
    (query_text : String) (top_k : Nat) (similarity_threshold : ℚ) :
    List Doc × Nat :=
  if db.index.length = 0 then ([], 0)
  else
    match embed query_text with
    | none => ([], 1)
    | some query_embedding =>
      ((faissSearch db.index query_embedding
          (min top_k db.index.length)).filterMap
        (hitResult db similarity_threshold), 1)

/-- The `similarity` annotation carried by a search result. -/
def simVal (d : Doc) : ℚ :=
  match dictGet d "similarity" with
  | some (.rat x) => x
  | _ => 0

section SearchLemmas

theorem l2sq_nonneg (a b : Vec) : 0 ≤ l2sq a b := by
  unfold l2sq
  apply List.sum_nonneg
  intro x hx
  rcases List.mem_map.1 hx with ⟨p, hp, he⟩
  rw [← he]
  exact sq_nonneg _

instance : IsTotal (ℚ × Nat) (fun a b => a.1 ≤ b.1) :=
  ⟨fun a b => le_total a.1 b.1⟩

instance : IsTrans (ℚ × Nat) (fun a b => a.1 ≤ b.1) :=
  ⟨fun _ _ _ h1 h2 => le_trans h1 h2⟩

theorem faissSearch_mem_nonneg (index : List Vec) (q : Vec) (k : Nat)
    (hit : ℚ × Nat) (h : hit ∈ faissSearch index q k) : 0 ≤ hit.1 := by
  unfold faissSearch at h
  have h2 := List.mem_of_mem_take h
  have h3 := (List.perm_insertionSort
    (fun a b : ℚ × Nat => a.1 ≤ b.1) _).mem_iff.1 h2
  rcases List.mem_map.1 h3 with ⟨p, hp, hpe⟩
  rw [← hpe]
  exact l2sq_nonneg q p.2

theorem faissSearch_sorted (index : List Vec) (q : Vec) (k : Nat) :
    List.Pairwise (fun a b : ℚ × Nat => a.1 ≤ b.1) (faissSearch index q k) :=
  List.Pairwise.sublist (List.take_sublist _ _)
    (List.sorted_insertionSort _ _)

theorem hitResult_some (db : DB) (θ : ℚ) (hit : ℚ × Nat) (r : Doc)
    (h : hitResult db θ hit = some r) :
    dictGet r "distance" = some (.rat hit.1) ∧
    dictGet r "similarity" = some (.rat (similarity hit.1)) ∧
    θ ≤ similarity hit.1 := by
  unfold hitResult at h
  split at h
  next hθ =>
    split at h
    next q hf =>
      split at h
      next hq => exact Option.noConfusion h
      next hq =>
        split at h
        next dr hg =>
          injection h with h
          subst h
          refine ⟨dictGet_dictSet_self _ _ _, ?_, hθ⟩
          rw [dictGet_dictSet_ne _ _ _ _ (by decide)]
          exact dictGet_dictSet_self _ _ _
        next hg => exact Option.noConfusion h
    next hf => exact Option.noConfusion h
  next hθ => exact Option.noConfusion h

end SearchLemmas

/-- C5: every `search_similar` result list has at most `top_k` entries;
each entry is annotated with its L2 distance `d ≥ 0` and with
`similarity = 1 / (1 + d)`, every returned similarity meets the threshold,
and the list is sorted in descending order of similarity (ascending
distance, `1/(1+d)` being antitone in `d ≥ 0`). -/
theorem search_similar_spec (embed : String → Option Vec) (db : DB)
    (query_text : String) (top_k : Nat) (similarity_threshold : ℚ) :
    (search_similar embed db query_text top_k similarity_threshold).1.length
        ≤ top_k ∧
    (∀ r ∈ (search_similar embed db query_text top_k
        similarity_threshold).1, ∃ d : ℚ, 0 ≤ d ∧
      dictGet r "distance" = some (.rat d) ∧
      dictGet r "similarity" = some (.rat (1 / (1 + d))) ∧
      similarity_threshold ≤ 1 / (1 + d)) ∧
    List.Pairwise (fun a b => simVal b ≤ simVal a)
      (search_similar embed db query_text top_k similarity_threshold).1 := by
  unfold search_similar
  by_cases h0 : db.index.length = 0
  · rw [if_pos h0]
    exact ⟨by simp, by simp, by simp⟩
  · rw [if_neg h0]
    cases he : embed query_text with
    | none => exact ⟨by simp, by simp, by simp⟩
    | some qe =>
      dsimp only
      refine ⟨?_, ?_, ?_⟩
      · have h1 := List.length_filterMap_le
          (hitResult db similarity_threshold)
          (faissSearch db.index qe (min top_k db.index.length))
        have h2 : (faissSearch db.index qe
            (min top_k db.index.length)).length
            ≤ min top_k db.index.length := by
          unfold faissSearch
          rw [List.length_take]
          exact min_le_left _ _
        omega
      · intro r hr
        rcases List.mem_filterMap.1 hr with ⟨hit, hhit, hres⟩
        rcases hitResult_some db similarity_threshold hit r hres
          with ⟨hd, hs, hθ⟩
        refine ⟨hit.1, faissSearch_mem_nonneg _ _ _ _ hhit, hd, ?_, hθ⟩
        rw [hs]
        rfl
      · have hsorted := faissSearch_sorted db.index qe
          (min top_k db.index.length)
        have hsorted2 := List.Pairwise.and_mem.1 hsorted
        refine List.Pairwise.filterMap (hitResult db similarity_threshold)
          ?_ hsorted2
        intro a b hab r1 hr1 r2 hr2
        rcases hab with ⟨ha, hb, hle⟩
        rcases hitResult_some db similarity_threshold a r1
          (Option.mem_def.1 hr1) with ⟨_, hs1, _⟩
        rcases hitResult_some db similarity_threshold b r2
          (Option.mem_def.1 hr2) with ⟨_, hs2, _⟩
        have he1 : simVal r1 = similarity a.1 := by unfold simVal; rw [hs1]
        have he2 : simVal r2 = similarity b.1 := by unfold simVal; rw [hs2]
        rw [he1, he2]
        have h0a : (0 : ℚ) ≤ a.1 := faissSearch_mem_nonneg _ _ _ _ ha
        unfold similarity
        apply one_div_le_one_div_of_le
        · linarith
        · linarith

/-- C6: with an empty index `search_similar` returns `[]` without invoking
the embedding provider (zero `_get_embedding` calls); and when embedding
the query fails it likewise returns `[]`.  The method never writes any
instance state (it is a pure function of the state), so the cache is
unchanged in both cases. -/
theorem search_similar_empty_or_fail (embed : String → Option Vec) (db : DB)
    (query_text : String) (top_k : Nat) (similarity_threshold : ℚ)
    (h : db.index.length = 0 ∨ embed query_text = none) :
    (search_similar embed db query_text top_k similarity_threshold).1 = [] ∧
    (db.index.length = 0 →
      search_similar embed db query_text top_k similarity_threshold
        = ([], 0)) := by
  unfold search_similar
  rcases h with h0 | hf
  · rw [if_pos h0]
    exact ⟨rfl, fun _ => rfl⟩
  · by_cases h0 : db.index.length = 0
    · rw [if_pos h0]
      exact ⟨rfl, fun _ => rfl⟩
    · rw [if_neg h0]
      rw [hf]
      exact ⟨rfl, fun hc => absurd hc h0⟩

/-- Witness for C6: the empty cache with an always-failing provider. -/
theorem search_similar_empty_or_fail_witness :
    (search_similar (fun _ => none)
        { documents := [], doc_id_to_index := [], index := [] } "x" 5 0).1
      = [] ∧
    ((DB.mk [] [] []).index.length = 0 →
      search_similar (fun _ => none)
          { documents := [], doc_id_to_index := [], index := [] } "x" 5 0
        = ([], 0)) :=
  search_similar_empty_or_fail (fun _ => none)
    { documents := [], doc_id_to_index := [], index := [] } "x" 5 0
    (Or.inl rfl)

/-- A heap of Python dict objects; a reference is an index into the heap.
Used to make object identity — the in-place mutation of the caller's dict
and the `document.copy()` of db.py line 112 — observable for C10. -/
abbrev Heap := List Doc

/-- The cache state with the stored documents held by reference into the
heap (`documents : doc_id → heap reference of the stored copy`). -/
structure HeapDB where
  documents : List (String × Nat)
  doc_id_to_index : List (String × Nat)
  index : List Vec
deriving DecidableEq, Repr

/-- `insert_document` (db.py lines 98–126) once more, embedded at the
level of object references: the caller passes a reference `docRef` to its
dict; lines 102–103 mutate that object in place (before the embedding
call); on success line 112 stores a *fresh copy* (`document.copy()`) at a
new heap cell, so the store never aliases the caller's object.  Returns
(heap, state, returned id or `none`). -/
def insert_document_heap (embed : String → Option Vec) (now : Nat)
    (newId : String) (h : Heap) (db : HeapDB) (docRef : Nat) :
    Heap × HeapDB × Option String :=
  let doc := h.getD docRef []
  let doc := dictSet doc "_id" (.str newId)
  let doc := dictSet doc "timestamp"
    ((dictGet doc "timestamp").getD (.time now))
  let h := h.set docRef doc
  match embed (docText doc) with
  | none => (h, db, none)
  | some embedding =>
    let storedRef := h.length
    let h := h ++ [doc]
    let index := db.index ++ [embedding]
    let doc_id_to_index := db.doc_id_to_index ++ [(newId, index.length - 1)]
    (h, { documents := db.documents ++ [(newId, storedRef)],
          doc_id_to_index := doc_id_to_index, index := index }, some newId)

theorem insert_document_heap_fail_eq (embed : String → Option Vec)
    (now : Nat) (newId : String) (h : Heap) (db : HeapDB) (docRef : Nat)
    (hfail : embed (docText (h.getD docRef [])) = none) :
    insert_document_heap embed now newId h db docRef
      = (h.set docRef (mutatedDoc now newId (h.getD docRef [])), db, none) := by
  have htext : embed (docText (mutatedDoc now newId (h.getD docRef [])))
      = none := by
    rw [docText_mutatedDoc]; exact hfail
  unfold mutatedDoc at htext ⊢
  unfold insert_document_heap
  dsimp only at htext ⊢
  rw [htext]

theorem insert_document_heap_success_eq (embed : String → Option Vec)
    (now : Nat) (newId : String) (h : Heap) (db : HeapDB) (docRef : Nat)
    (e : Vec) (hsucc : embed (docText (h.getD docRef [])) = some e) :
    insert_document_heap embed now newId h db docRef
      = (h.set docRef (mutatedDoc now newId (h.getD docRef []))
            ++ [mutatedDoc now newId (h.getD docRef [])],
         { documents := db.documents ++ [(newId, h.length)],
           doc_id_to_index := db.doc_id_to_index
              ++ [(newId, db.index.length)],
           index := db.index ++ [e] }, some newId) := by
  have htext : embed (docText (mutatedDoc now newId (h.getD docRef [])))
      = some e := by
    rw [docText_mutatedDoc]; exact hsucc
  unfold mutatedDoc at htext ⊢
  unfold insert_document_heap
  dsimp only at htext ⊢
  rw [htext]
  simp [List.length_append]

/-- C10: `insert_document` writes `_id` (the fresh id) and `timestamp`
(the existing value, defaulting to the current time) into the caller's
dict in place before embedding runs, so these writes persist even when
embedding fails and nothing is committed; on success the store keeps a
fresh copy at a new heap cell, so any later mutation of the caller's
object leaves the stored document unchanged. -/
theorem insert_document_mutates_caller (embed : String → Option Vec)
    (now : Nat) (newId : String) (h : Heap) (db : HeapDB) (docRef : Nat)
    (hr : docRef < h.length) :
    (insert_document_heap embed now newId h db docRef).1.getD docRef []
        = mutatedDoc now newId (h.getD docRef []) ∧
    dictGet (mutatedDoc now newId (h.getD docRef [])) "_id"
        = some (.str newId) ∧
    dictGet (mutatedDoc now newId (h.getD docRef [])) "timestamp"
        = some ((dictGet (h.getD docRef []) "timestamp").getD (.time now)) ∧
    (embed (docText (h.getD docRef [])) = none →
      (insert_document_heap embed now newId h db docRef).2.1 = db ∧
      (insert_document_heap embed now newId h db docRef).2.2 = none) ∧
    (∀ e, embed (docText (h.getD docRef [])) = some e →
      (insert_document_heap embed now newId h db docRef).2.1.documents
          = db.documents ++ [(newId, h.length)] ∧
      h.length ≠ docRef ∧
      ∀ d', ((insert_document_heap embed now newId h db docRef).1.set
            docRef d').getD h.length []
          = mutatedDoc now newId (h.getD docRef [])) := by
  refine ⟨?_, ?_, ?_, ?_, ?_⟩
  · cases he : embed (docText (h.getD docRef [])) with
    | none =>
      rw [insert_document_heap_fail_eq embed now newId h db docRef he]
      dsimp only
      rw [List.getD_eq_getElem?_getD, List.getElem?_set_self hr]
      rfl
    | some e =>
      rw [insert_document_heap_success_eq embed now newId h db docRef e he]
      dsimp only
      rw [List.getD_eq_getElem?_getD,
        List.getElem?_append_left (by simpa using hr),
        List.getElem?_set_self hr]
      rfl
  · unfold mutatedDoc
    dsimp only
    rw [dictGet_dictSet_ne _ _ _ _ (by decide)]
    exact dictGet_dictSet_self _ _ _
  · unfold mutatedDoc
    dsimp only
    rw [dictGet_dictSet_self,
      dictGet_dictSet_ne _ _ _ _ (by decide)]
  · intro hfail
    rw [insert_document_heap_fail_eq embed now newId h db docRef hfail]
    exact ⟨rfl, rfl⟩
  · intro e he
    rw [insert_document_heap_success_eq embed now newId h db docRef e he]
    refine ⟨rfl, Nat.ne_of_gt hr, ?_⟩
    intro d'
    dsimp only
    rw [List.set_append,
      if_pos (by simpa using hr)]
    rw [List.getD_eq_getElem?_getD]
    have hlen : ((h.set docRef
        (mutatedDoc now newId (h.getD docRef []))).set docRef d').length
        = h.length := by simp
    rw [show h.length = ((h.set docRef
        (mutatedDoc now newId (h.getD docRef []))).set docRef d').length
      from hlen.symm]
    rw [List.getElem?_concat_length]
    rfl

/-- Witness for C10: a one-cell heap holding a document with a `text`
field, inserted into the empty cache. -/
theorem insert_document_mutates_caller_witness :
    ((insert_document_heap (fun _ => some [1]) 7 "id1"
        [[("text", .str "x")]] (HeapDB.mk [] [] []) 0).1.getD 0 []
        = mutatedDoc 7 "id1" ([[("text", Val.str "x")]].getD 0 []) ∧
    dictGet (mutatedDoc 7 "id1" ([[("text", Val.str "x")]].getD 0 [])) "_id"
        = some (.str "id1") ∧
    dictGet (mutatedDoc 7 "id1" ([[("text", Val.str "x")]].getD 0 []))
        "timestamp"
        = some ((dictGet ([[("text", Val.str "x")]].getD 0 [])
            "timestamp").getD (.time 7)) ∧
    ((fun _ : String => some [(1 : ℚ)])
        (docText ([[("text", Val.str "x")]].getD 0 [])) = none →
      (insert_document_heap (fun _ => some [1]) 7 "id1"
          [[("text", .str "x")]] (HeapDB.mk [] [] []) 0).2.1
          = HeapDB.mk [] [] [] ∧
      (insert_document_heap (fun _ => some [1]) 7 "id1"
          [[("text", .str "x")]] (HeapDB.mk [] [] []) 0).2.2 = none) ∧
    (∀ e, (fun _ : String => some [(1 : ℚ)])
        (docText ([[("text", Val.str "x")]].getD 0 [])) = some e →
      (insert_document_heap (fun _ => some [1]) 7 "id1"
          [[("text", .str "x")]] (HeapDB.mk [] [] []) 0).2.1.documents
          = (HeapDB.mk [] [] []).documents
              ++ [("id1", ([[("text", Val.str "x")]] : Heap).length)] ∧
      ([[("text", Val.str "x")]] : Heap).length ≠ 0 ∧
      ∀ d', ((insert_document_heap (fun _ => some [1]) 7 "id1"
            [[("text", .str "x")]] (HeapDB.mk [] [] []) 0).1.set 0 d').getD
            ([[("text", Val.str "x")]] : Heap).length []
          = mutatedDoc 7 "id1" ([[("text", Val.str "x")]].getD 0 []))) :=
  insert_document_mutates_caller (fun _ => some [1]) 7 "id1"
    [[("text", .str "x")]] (HeapDB.mk [] [] []) 0 (by decide)

end NewsDatabase
